import Mathlib

/-!
# Verification of the markdown-renderer render pipeline

This file gives a shallow embedding of the core of `src/app.js` of the
`markdown-renderer` repository: the HTML escaper, the debounce utility, the
custom fenced-code-block renderer, the Mermaid diagram batch processor with
its global id counter, the preview update path, and the URL-hash share
codec.  Pure functions of the source are translated directly; the
event-driven parts (timers, the DOM, the asynchronous diagram batch) are
embedded as explicit state-passing over small state types.  Theorems below
settle the specification claims against these definitions.
-/

namespace MarkdownRenderer

/-! ## Escaper (`escapeHtml`, src/app.js lines 226-233)

The source applies five global single-character regex replacements in
order: `&`, `<`, `>`, `"`, `'`.  `replaceCharL` is the semantics of one
global replacement of a single character by a string, on the character
list of the input. -/

/-- One pass of `String.prototype.replace(/c/g, r)` for a single-character
pattern `c`: every occurrence of `c` is replaced by the list `r`. -/
def replaceCharL (c : Char) (r : List Char) : List Char → List Char
  | [] => []
  | x :: xs => if x = c then r ++ replaceCharL c r xs else x :: replaceCharL c r xs

/-- The body of `escapeHtml` from src/app.js: the five replacement passes,
applied in source order (`&` first, then `<`, `>`, `"`, `'`). -/
def escapeHtmlL (l : List Char) : List Char :=
  replaceCharL '\'' "&#039;".data
    (replaceCharL '"' "&quot;".data
      (replaceCharL '>' "&gt;".data
        (replaceCharL '<' "&lt;".data
          (replaceCharL '&' "&amp;".data l))))

/-- `escapeHtml` from src/app.js lines 226-233. -/
def escapeHtml (s : String) : String := ⟨escapeHtmlL s.data⟩

/-- Specification-side single-character replacement map: each of the five
HTML-special characters goes to its named reference, every other character
is left alone. -/
def escChar (x : Char) : List Char :=
  if x = '&' then "&amp;".data
  else if x = '<' then "&lt;".data
  else if x = '>' then "&gt;".data
  else if x = '"' then "&quot;".data
  else if x = '\'' then "&#039;".data
  else [x]

/-- Specification-side escaper: the concatenation of the per-character
replacements, in input order. -/
def escAll : List Char → List Char
  | [] => []
  | x :: xs => escChar x ++ escAll xs

theorem replaceCharL_append (c : Char) (r : List Char) (a b : List Char) :
    replaceCharL c r (a ++ b) = replaceCharL c r a ++ replaceCharL c r b := by
  induction a with
  | nil => simp [replaceCharL]
  | cons x xs ih =>
    by_cases hx : x = c <;> simp [replaceCharL, hx, ih]

theorem escapeHtmlL_append (a b : List Char) :
    escapeHtmlL (a ++ b) = escapeHtmlL a ++ escapeHtmlL b := by
  simp [escapeHtmlL, replaceCharL_append]

theorem escapeHtmlL_singleton (x : Char) :
    escapeHtmlL [x] = escChar x := by
  by_cases h1 : x = '&'
  · subst h1; rfl
  · by_cases h2 : x = '<'
    · subst h2; rfl
    · by_cases h3 : x = '>'
      · subst h3; rfl
      · by_cases h4 : x = '"'
        · subst h4; rfl
        · by_cases h5 : x = '\''
          · subst h5; rfl
          · simp [escapeHtmlL, replaceCharL, escChar, h1, h2, h3, h4, h5]

theorem escapeHtmlL_eq_escAll (l : List Char) :
    escapeHtmlL l = escAll l := by
  induction l with
  | nil => rfl
  | cons x xs ih =>
    have hsplit : x :: xs = [x] ++ xs := rfl
    rw [hsplit, escapeHtmlL_append, escapeHtmlL_singleton, ih]
    rfl

theorem escAll_no_markup (l : List Char) :
    ∀ y ∈ escAll l, y ≠ '<' ∧ y ≠ '>' ∧ y ≠ '"' ∧ y ≠ '\'' := by
  induction l with
  | nil => intro y hy; cases hy
  | cons x xs ih =>
    intro y hy
    rw [escAll, List.mem_append] at hy
    rcases hy with hy | hy
    · unfold escChar at hy
      by_cases h1 : x = '&'
      · simp [h1] at hy
        rcases hy with h | h | h | h | h <;> subst h <;> exact ⟨by decide, by decide, by decide, by decide⟩
      · by_cases h2 : x = '<'
        · simp [h1, h2] at hy
          rcases hy with h | h | h | h <;> subst h <;> exact ⟨by decide, by decide, by decide, by decide⟩
        · by_cases h3 : x = '>'
          · simp [h1, h2, h3] at hy
            rcases hy with h | h | h | h <;> subst h <;> exact ⟨by decide, by decide, by decide, by decide⟩
          · by_cases h4 : x = '"'
            · simp [h1, h2, h3, h4] at hy
              rcases hy with h | h | h | h | h | h <;> subst h <;> exact ⟨by decide, by decide, by decide, by decide⟩
            · by_cases h5 : x = '\''
              · simp [h1, h2, h3, h4, h5] at hy
                rcases hy with h | h | h | h | h | h <;> subst h <;> exact ⟨by decide, by decide, by decide, by decide⟩
              · simp [h1, h2, h3, h4, h5] at hy
                subst hy
                exact ⟨h2, h3, h4, h5⟩
    · exact ih y hy

/-- Model of the browser's entity decoding (`textContent` read-back of
injected `innerHTML`), restricted to the five named references the
Escaper emits: each reference decodes to its character, every other
character is read literally. -/
def unescAll (l : List Char) : List Char :=
  match l with
  | [] => []
  | x :: xs =>
    if x = '&' then
      if xs.take 4 = ['a', 'm', 'p', ';'] then '&' :: unescAll (xs.drop 4)
      else if xs.take 3 = ['l', 't', ';'] then '<' :: unescAll (xs.drop 3)
      else if xs.take 3 = ['g', 't', ';'] then '>' :: unescAll (xs.drop 3)
      else if xs.take 5 = ['q', 'u', 'o', 't', ';'] then '"' :: unescAll (xs.drop 5)
      else if xs.take 5 = ['#', '0', '3', '9', ';'] then '\'' :: unescAll (xs.drop 5)
      else x :: unescAll xs
    else x :: unescAll xs
termination_by l.length
decreasing_by all_goals (simp [List.length_drop]; try omega)

/-- `true` iff every `&` in the list begins one of the five named
character references emitted by the Escaper. -/
def ampRefsOnly (l : List Char) : Bool :=
  match l with
  | [] => true
  | x :: xs =>
    if x = '&' then
      if xs.take 4 = ['a', 'm', 'p', ';'] then ampRefsOnly (xs.drop 4)
      else if xs.take 3 = ['l', 't', ';'] then ampRefsOnly (xs.drop 3)
      else if xs.take 3 = ['g', 't', ';'] then ampRefsOnly (xs.drop 3)
      else if xs.take 5 = ['q', 'u', 'o', 't', ';'] then ampRefsOnly (xs.drop 5)
      else if xs.take 5 = ['#', '0', '3', '9', ';'] then ampRefsOnly (xs.drop 5)
      else false
    else ampRefsOnly xs
termination_by l.length
decreasing_by all_goals (simp [List.length_drop]; try omega)

theorem unescAll_escAll (l : List Char) : unescAll (escAll l) = l := by
  induction l with
  | nil => simp [escAll, unescAll]
  | cons x xs ih =>
    rw [escAll]
    by_cases h1 : x = '&'
    · subst h1; simp [escChar, unescAll, ih]
    · by_cases h2 : x = '<'
      · subst h2; simp [escChar, unescAll, ih]
      · by_cases h3 : x = '>'
        · subst h3; simp [escChar, unescAll, ih]
        · by_cases h4 : x = '"'
          · subst h4; simp [escChar, unescAll, ih]
          · by_cases h5 : x = '\''
            · subst h5; simp [escChar, unescAll, ih]
            · simp [escChar, unescAll, h1, h2, h3, h4, h5, ih]

theorem ampRefsOnly_escAll (l : List Char) : ampRefsOnly (escAll l) = true := by
  induction l with
  | nil => simp [escAll, ampRefsOnly]
  | cons x xs ih =>
    rw [escAll]
    by_cases h1 : x = '&'
    · subst h1; simp [escChar, ampRefsOnly, ih]
    · by_cases h2 : x = '<'
      · subst h2; simp [escChar, ampRefsOnly, ih]
      · by_cases h3 : x = '>'
        · subst h3; simp [escChar, ampRefsOnly, ih]
        · by_cases h4 : x = '"'
          · subst h4; simp [escChar, ampRefsOnly, ih]
          · by_cases h5 : x = '\''
            · subst h5; simp [escChar, ampRefsOnly, ih]
            · simp [escChar, ampRefsOnly, h1, h2, h3, h4, h5, ih]

/-- The Escaper round-trips: decoding its output (as the browser reads
`textContent` of injected markup) restores the original text exactly. -/
theorem unescAll_escapeHtml (s : String) :
    unescAll (escapeHtml s).data = s.data := by
  show unescAll (escapeHtmlL s.data) = s.data
  rw [escapeHtmlL_eq_escAll, unescAll_escAll]

/-! ## CodeBlockRenderer (`initRenderer`'s custom `renderer.code`,
src/app.js lines 247-279)

The highlighting service (highlight.js) is an external collaborator; it is
modelled at its call boundary: `getLanguage` and `highlight` may either
return a value or raise (`Except.error`).  The source wraps both calls in
one `try`/`catch` and falls through to the plain escaped branch on a falsy
`getLanguage` result or on any exception, so the embedded renderer is a
total function: its own evaluation never throws. -/

/-- The highlighting service at its call boundary: `getLanguage` tests
recognition of a tag, `highlight` produces markup; either may raise. -/
structure Hljs where
  getLanguage : String → Except String Bool
  highlight : String → String → Except String String

/-- JavaScript `String.prototype.trim()`: strip whitespace from both ends. -/
def jsTrim (s : String) : String :=
  ⟨((s.data.dropWhile Char.isWhitespace).reverse.dropWhile Char.isWhitespace).reverse⟩

/-- The `try` block of the language-specified branch of `renderer.code`:
`some html` when the tag is recognized and highlighting succeeds, `none`
when the tag is unrecognized or either call raises (the `catch` falls
through). -/
def hljsAttempt (hl : Hljs) (code lang : String) : Option String :=
  match hl.getLanguage lang with
  | Except.error _ => none
  | Except.ok false => none
  | Except.ok true =>
    match hl.highlight code lang with
    | Except.error _ => none
    | Except.ok h => some h

/-- The custom `renderer.code` strategy from `initRenderer`
(src/app.js lines 250-277). -/
def codeRenderer (hl : Hljs) (code : String) (langRaw : Option String) : String :=
  let lang := jsTrim (langRaw.getD "")
  if lang = "mermaid" then
    "<pre class=\"mermaid\">" ++ escapeHtml code ++ "</pre>"
  else if lang ≠ "" then
    match hljsAttempt hl code lang with
    | some h =>
      "<pre><code class=\"hljs language-" ++ escapeHtml lang ++ "\">" ++ h
        ++ "</code></pre>"
    | none =>
      "<pre><code class=\"language-" ++ escapeHtml lang ++ "\">" ++ escapeHtml code
        ++ "</code></pre>"
  else
    "<pre><code>" ++ escapeHtml code ++ "</code></pre>"

/-- The marker the DiagramRenderer scans for: the opening of a
`pre` element carrying the `mermaid` class. -/
def mermaidFlag : List Char := "<pre class=\"mermaid\">".data

/-! ## Debouncer (`debounce`, src/app.js lines 10-21)

The debounced wrapper keeps one closure variable `timer` (a timer id or
null).  Each invocation clears the pending timeout, if any, and schedules
a fresh one `delay` ms later; the timeout callback runs `fn` with the
invocation's arguments and resets `timer` to null.  The host's timer table
is embedded explicitly as a list of scheduled timeouts so that
cancellation and accumulation are observable. -/

/-- State of the debounced wrapper together with the host timer table:
`pending` holds the scheduled timeouts as `(timer id, fire time, args)`,
`closTimer` is the closure's `timer` variable, `fired` records the
executions of the wrapped function as `(fire time, args)` in order. -/
structure DebState (α : Type) where
  pending : List (Nat × Nat × α)
  nextTimerId : Nat
  closTimer : Option Nat
  fired : List (Nat × α)
  deriving DecidableEq

/-- Initial state: no timeout scheduled, `timer` is null, nothing fired. -/
def initDeb (α : Type) : DebState α := ⟨[], 0, none, []⟩

/-- Deliver every timeout due at or before time `t`: each one runs the
wrapped function (recording its arguments) and nulls the closure's
`timer` variable. -/
def fireDue {α : Type} (t : Nat) (s : DebState α) : DebState α :=
  let due := s.pending.filter (fun p => decide (p.2.1 ≤ t))
  { s with
      pending := s.pending.filter (fun p => decide (¬ p.2.1 ≤ t)),
      fired := s.fired ++ due.map (fun p => (p.2.1, p.2.2)),
      closTimer := if due.isEmpty then s.closTimer else none }

/-- One invocation of the debounced wrapper at time `t` with arguments
`args`: any timeout already due fires first (the event loop runs it before
the invocation), then the pending timeout is cleared (`clearTimeout`) and
a new one is scheduled `d` later (`setTimeout`). -/
def callAt {α : Type} (d : Nat) (t : Nat) (args : α) (s : DebState α) : DebState α :=
  let s1 := fireDue t s
  let s2 :=
    match s1.closTimer with
    | some id => { s1 with pending := s1.pending.filter (fun p => decide (p.1 ≠ id)) }
    | none => s1
  { s2 with
      pending := s2.pending ++ [(s2.nextTimerId, t + d, args)],
      closTimer := some s2.nextTimerId,
      nextTimerId := s2.nextTimerId + 1 }

/-- Quiescence: no further invocation ever arrives, so every still-pending
timeout eventually fires, at its scheduled time. -/
def flushDeb {α : Type} (s : DebState α) : DebState α :=
  { s with
      pending := [],
      fired := s.fired ++ s.pending.map (fun p => (p.2.1, p.2.2)),
      closTimer := if s.pending.isEmpty then s.closTimer else none }

/-- Run a sequence of timestamped invocations through the wrapper. -/
def processCalls {α : Type} (d : Nat) : List (Nat × α) → DebState α → DebState α
  | [], s => s
  | c :: cs, s => processCalls d cs (callAt d c.1 c.2 s)

/-- Every intermediate state along a sequence of invocations. -/
def statesAlong {α : Type} (d : Nat) : List (Nat × α) → DebState α → List (DebState α)
  | [], s => [s]
  | c :: cs, s => s :: statesAlong d cs (callAt d c.1 c.2 s)

/-- A full debounced session: the invocations, then quiescence. -/
def debounceRun {α : Type} (d : Nat) (calls : List (Nat × α)) : DebState α :=
  flushDeb (processCalls d calls (initDeb α))

theorem callAt_init {α : Type} (d t : Nat) (a : α) :
    callAt d t a (initDeb α) = ⟨[(0, t + d, a)], 1, some 0, []⟩ := rfl

theorem callAt_single {α : Type} (d t m : Nat) (a : α) (f : List (Nat × α))
    (t' : Nat) (a' : α) (h : t' < t + d) :
    callAt d t' a' ⟨[(m, t + d, a)], m + 1, some m, f⟩
      = ⟨[(m + 1, t' + d, a')], m + 2, some (m + 1), f⟩ := by
  have hnle : ¬ t + d ≤ t' := by omega
  simp [callAt, fireDue, hnle]

theorem processCalls_single {α : Type} (d : Nat) (rest : List (Nat × α)) :
    ∀ (t m : Nat) (a : α) (f : List (Nat × α)),
      List.Chain' (fun p q => p.1 < q.1 ∧ q.1 < p.1 + d) ((t, a) :: rest) →
      processCalls d rest (⟨[(m, t + d, a)], m + 1, some m, f⟩ : DebState α)
        = ⟨[(m + rest.length,
              (((t, a) :: rest).getLast (by simp)).1 + d,
              (((t, a) :: rest).getLast (by simp)).2)],
            m + rest.length + 1,
            some (m + rest.length), f⟩ := by
  induction rest with
  | nil => intro t m a f _; simp [processCalls]
  | cons c cs ih =>
    intro t m a f hch
    obtain ⟨t', a'⟩ := c
    have h1 : t < t' ∧ t' < t + d := List.chain'_cons.mp hch |>.1
    have h2 : List.Chain' (fun p q => p.1 < q.1 ∧ q.1 < p.1 + d) ((t', a') :: cs) :=
      List.chain'_cons.mp hch |>.2
    rw [processCalls, callAt_single d t m a f t' a' h1.2]
    rw [ih t' (m + 1) a' f h2]
    have hlast : ((t, a) :: (t', a') :: cs).getLast (by simp)
        = ((t', a') :: cs).getLast (by simp) := by
      rw [List.getLast_cons]
    simp only [hlast, List.length_cons]
    have harith : m + 1 + cs.length = m + (cs.length + 1) := by omega
    rw [harith]

theorem statesAlong_single {α : Type} (d : Nat) (rest : List (Nat × α)) :
    ∀ (t m : Nat) (a : α) (f : List (Nat × α)),
      List.Chain' (fun p q => p.1 < q.1 ∧ q.1 < p.1 + d) ((t, a) :: rest) →
      ∀ s ∈ statesAlong d rest (⟨[(m, t + d, a)], m + 1, some m, f⟩ : DebState α),
        s.pending.length ≤ 1 := by
  induction rest with
  | nil =>
    intro t m a f _ s hs
    simp [statesAlong] at hs
    subst hs
    simp
  | cons c cs ih =>
    intro t m a f hch s hs
    obtain ⟨t', a'⟩ := c
    have h1 : t < t' ∧ t' < t + d := List.chain'_cons.mp hch |>.1
    have h2 : List.Chain' (fun p q => p.1 < q.1 ∧ q.1 < p.1 + d) ((t', a') :: cs) :=
      List.chain'_cons.mp hch |>.2
    rw [statesAlong, callAt_single d t m a f t' a' h1.2] at hs
    rcases List.mem_cons.mp hs with hs | hs
    · subst hs; simp
    · exact ih t' (m + 1) a' f h2 s hs

/-! ## DiagramRenderer batch (`renderMermaidDiagrams`, src/app.js lines 46-73)

The diagram engine (`mermaid.run`) is an external collaborator returning a
promise per element; it is modelled as `String → Except String String`:
`ok svg` resolves with a graphic, `error msg` rejects with message `msg`.
The source loop awaits each element inside its own `try`/`catch`, so one
rejection is converted into an inline error replacement instead of
aborting the loop. -/

/-- Rendering state of one diagram placeholder (spec §4.5). -/
inductive DiagramState
  | pending
  | succeeded
  | failed
  deriving DecidableEq

/-- One `pre.mermaid` placeholder: its raw diagram source, its current
content (innerHTML) and its rendering state. -/
structure MermaidEl where
  src : String
  content : String
  state : DiagramState
  deriving DecidableEq

/-- The inline error markup of the `catch` block (src/app.js lines 64-68):
`error.message || 'Failed to render Mermaid diagram'`, escaped. -/
def mermaidErrorHtml (msg : String) : String :=
  "<div class=\"mermaid-error\">Mermaid diagram error: "
    ++ escapeHtml (if msg = "" then "Failed to render Mermaid diagram" else msg)
    ++ "</div>"

/-- The terminal outcome of one placeholder: engine success replaces the
content with the graphic, engine rejection replaces it with the escaped
error message. -/
def resolveOne (engine : String → Except String String) (el : MermaidEl) : MermaidEl :=
  match engine el.src with
  | Except.ok svg => { el with content := svg, state := DiagramState.succeeded }
  | Except.error msg =>
      { el with content := mermaidErrorHtml msg, state := DiagramState.failed }

/-- One iteration of the batch loop, as run by the event loop: an uncaught
exception would surface as `Except.error` and abort the remaining
iterations, but the body's `try`/`catch` turns every engine rejection into
an `ok` error-replacement. -/
def loopBody (engine : String → Except String String) (el : MermaidEl) :
    Except String MermaidEl :=
  match engine el.src with
  | Except.ok svg => Except.ok { el with content := svg, state := DiagramState.succeeded }
  | Except.error msg =>
      Except.ok { el with content := mermaidErrorHtml msg, state := DiagramState.failed }

/-- The per-element loop of `renderMermaidDiagrams` (src/app.js lines
60-69): processes the batch in document order, propagating any uncaught
exception of an iteration. -/
def runBatch (engine : String → Except String String) :
    List MermaidEl → Except String (List MermaidEl)
  | [] => Except.ok []
  | el :: rest =>
    match loopBody engine el with
    | Except.error e => Except.error e
    | Except.ok el1 =>
      match runBatch engine rest with
      | Except.error e => Except.error e
      | Except.ok rest1 => Except.ok (el1 :: rest1)

theorem loopBody_ok (engine : String → Except String String) (el : MermaidEl) :
    loopBody engine el = Except.ok (resolveOne engine el) := by
  unfold loopBody resolveOne
  cases engine el.src <;> rfl

theorem runBatch_ok (engine : String → Except String String) (els : List MermaidEl) :
    runBatch engine els = Except.ok (els.map (resolveOne engine)) := by
  induction els with
  | nil => rfl
  | cons el rest ih => rw [runBatch, loopBody_ok, ih]; rfl

theorem resolveOne_terminal (engine : String → Except String String) (el : MermaidEl) :
    (resolveOne engine el).state ≠ DiagramState.pending := by
  unfold resolveOne
  cases engine el.src <;> simp

/-! ## Mermaid id counter (`mermaidCounter`, src/app.js lines 36-38 and 54-57)

`mermaidCounter` is a module-global initialised once to 0 and written only
by the pre-increment in the id-assignment loop of `renderMermaidDiagrams`;
no other statement in src/app.js assigns it, so it is never reset.  Each
element of a batch receives the attribute id `mermaid-<counter>` with the
counter pre-incremented. -/

/-- The id-assignment loop of one batch over `n` elements starting from
counter value `c`: the numeric ids handed out, in document order
(the attribute written is `mermaid-` followed by the decimal numeral). -/
def assignIds : Nat → Nat → List Nat
  | _, 0 => []
  | c, n + 1 => (c + 1) :: assignIds (c + 1) n

/-- The counter value after a batch of `n` elements starting from `c`. -/
def counterAfter (c n : Nat) : Nat := c + n

/-- The ids assigned over a whole session: one batch per render cycle, the
global counter threaded through (never reset between cycles). -/
def sessionIds : Nat → List Nat → List (List Nat)
  | _, [] => []
  | c, n :: ns => assignIds c n :: sessionIds (counterAfter c n) ns

theorem assignIds_eq_range (c n : Nat) :
    assignIds c n = List.range' (c + 1) n := by
  induction n generalizing c with
  | zero => rfl
  | succ k ih =>
    rw [assignIds, ih, List.range'_succ]

theorem mem_assignIds {c n x : Nat} (hx : x ∈ assignIds c n) :
    c < x ∧ x ≤ c + n := by
  rw [assignIds_eq_range, List.mem_range'_1] at hx
  omega

theorem pairwise_assignIds (c n : Nat) :
    List.Pairwise (· < ·) (assignIds c n) := by
  rw [assignIds_eq_range]
  exact List.pairwise_lt_range' _ _

theorem mem_sessionIds_flatten {c : Nat} {ns : List Nat} {x : Nat}
    (hx : x ∈ (sessionIds c ns).flatten) : c < x := by
  induction ns generalizing c with
  | nil => simp [sessionIds] at hx
  | cons n ns ih =>
    rw [sessionIds, List.flatten_cons, List.mem_append] at hx
    rcases hx with hx | hx
    · exact (mem_assignIds hx).1
    · have := ih hx
      unfold counterAfter at this
      omega

theorem pairwise_sessionIds (c : Nat) (ns : List Nat) :
    List.Pairwise (· < ·) ((sessionIds c ns).flatten) := by
  induction ns generalizing c with
  | nil => simp [sessionIds]
  | cons n ns ih =>
    rw [sessionIds, List.flatten_cons, List.pairwise_append]
    refine ⟨pairwise_assignIds c n, ih (counterAfter c n), ?_⟩
    intro a ha b hb
    have h1 := mem_assignIds ha
    have h2 := mem_sessionIds_flatten hb
    unfold counterAfter at h2
    omega

/-! ## Preview replacement and cross-cycle ordering
(`updatePreview`, src/app.js lines 82-97)

`updatePreview` replaces the preview container's content wholesale
(`preview.innerHTML = html`) and then starts the asynchronous diagram
batch.  The batch captures its node references synchronously (the
`querySelectorAll` on line 48 runs before the first `await`), so a later
cycle's `innerHTML` assignment detaches those nodes: subsequent
per-element effects (the engine rendering into the node, or the `catch`
block's `innerHTML` error replacement) mutate detached nodes only.

The DOM is embedded as a heap of node objects addressed by allocation
order: `heap` gives each allocated node's content, `attached` lists the
nodes currently inside the preview container (in document order), and
`nextId` is the allocation counter.  Replacing `innerHTML` allocates
fresh nodes and re-points `attached`; the old nodes stay in the heap
(still referenced by the in-flight batch) but are no longer visible. -/

/-- The DOM fragment owned by the preview container. -/
structure Dom where
  heap : Nat → Option String
  attached : List Nat
  nextId : Nat

/-- Mutate one node object's content (visible or detached alike). -/
def setNode (id : Nat) (content : String) (h : Nat → Option String) :
    Nat → Option String :=
  fun k => if k = id then some content else h k

/-- Allocate one fresh node per content string, at consecutive ids. -/
def allocNodes : Nat → List String → (Nat → Option String) → (Nat → Option String)
  | _, [], h => h
  | base, c :: cs, h => allocNodes (base + 1) cs (setNode base c h)

/-- `preview.innerHTML = html`: full replacement — fresh node objects for
the new content, `attached` re-pointed at them; the previous nodes are
detached but remain mutable in the heap. -/
def injectPreview (contents : List String) (d : Dom) : Dom :=
  { heap := allocNodes d.nextId contents d.heap,
    attached := List.range' d.nextId contents.length,
    nextId := d.nextId + contents.length }

/-- The placeholder markup shown for empty input (src/app.js line 89). -/
def placeholderHtml : String :=
  "<div class=\"placeholder\">Start typing Markdown to see a live preview...</div>"

/-- `updatePreview` (src/app.js lines 82-97): empty or whitespace-only
input injects the fixed placeholder; otherwise the conversion of the
source text (the grammar engine `convert` is an external collaborator
producing the child contents of the injected fragment) is injected
wholesale.  The subsequent diagram batch is modelled separately by
`applyResolves`. -/
def updatePreview (convert : String → List String) (src : String) (d : Dom) : Dom :=
  if src = "" ∨ jsTrim src = "" then injectPreview [placeholderHtml] d
  else injectPreview (convert src) d

/-- One in-flight diagram continuation landing: node `id` (a reference
captured when its batch started) gets content `content` — the rendered
graphic or the error replacement. -/
def resolveNode (id : Nat) (content : String) (d : Dom) : Dom :=
  { d with heap := setNode id content d.heap }

/-- A sequence of diagram continuations landing, in event-loop order. -/
def applyResolves : List (Nat × String) → Dom → Dom
  | [], d => d
  | r :: rs, d => applyResolves rs (resolveNode r.1 r.2 d)

/-- What the user sees: the contents of the attached nodes, in order. -/
def visible (d : Dom) : List (Option String) := d.attached.map d.heap

theorem applyResolves_attached (ts : List (Nat × String)) :
    ∀ d : Dom, (applyResolves ts d).attached = d.attached := by
  induction ts with
  | nil => intro d; rfl
  | cons r rs ih => intro d; rw [applyResolves, ih]; rfl

theorem applyResolves_agree (S : List Nat) (ts : List (Nat × String)) :
    ∀ d d' : Dom, (∀ k ∈ S, d.heap k = d'.heap k) →
      ∀ k ∈ S, (applyResolves ts d).heap k
        = (applyResolves (ts.filter (fun p => decide (p.1 ∈ S))) d').heap k := by
  induction ts with
  | nil => intro d d' hag k hk; simpa [applyResolves] using hag k hk
  | cons r rs ih =>
    intro d d' hag k hk
    by_cases hr : r.1 ∈ S
    · have : (r :: rs).filter (fun p => decide (p.1 ∈ S))
          = r :: rs.filter (fun p => decide (p.1 ∈ S)) := by
        simp [List.filter_cons, hr]
      rw [this, applyResolves, applyResolves]
      refine ih _ _ ?_ k hk
      intro j hj
      show setNode r.1 r.2 d.heap j = setNode r.1 r.2 d'.heap j
      unfold setNode
      by_cases hj1 : j = r.1 <;> simp [hj1, hag j hj]
    · have : (r :: rs).filter (fun p => decide (p.1 ∈ S))
          = rs.filter (fun p => decide (p.1 ∈ S)) := by
        simp [List.filter_cons, hr]
      rw [this, applyResolves]
      refine ih _ _ ?_ k hk
      intro j hj
      show setNode r.1 r.2 d.heap j = d'.heap j
      unfold setNode
      have hjr : j ≠ r.1 := by
        intro heq; exact hr (heq ▸ hj)
      simp [hjr, hag j hj]

theorem visible_applyResolves_filter (ts : List (Nat × String)) (d : Dom) :
    visible (applyResolves ts d)
      = visible (applyResolves (ts.filter (fun p => decide (p.1 ∈ d.attached))) d) := by
  unfold visible
  rw [applyResolves_attached, applyResolves_attached]
  apply List.map_congr_left
  intro k hk
  exact applyResolves_agree d.attached ts d d (fun _ _ => rfl) k hk

theorem mem_attached_injectPreview {L : List String} {d : Dom} {x : Nat} :
    x ∈ (injectPreview L d).attached ↔ d.nextId ≤ x ∧ x < d.nextId + L.length := by
  unfold injectPreview
  exact List.mem_range'_1

theorem updatePreview_eq_inject (convert : String → List String) (src : String) (d : Dom) :
    updatePreview convert src d
      = injectPreview (if src = "" ∨ jsTrim src = "" then [placeholderHtml] else convert src) d := by
  unfold updatePreview
  by_cases h : src = "" ∨ jsTrim src = "" <;> simp [h]

theorem attached_disjoint_after_second (convert : String → List String)
    (srcA srcB : String) (d0 : Dom) {x : Nat}
    (hx : x ∈ (updatePreview convert srcA d0).attached) :
    x ∉ (updatePreview convert srcB (updatePreview convert srcA d0)).attached := by
  rw [updatePreview_eq_inject convert srcA] at hx ⊢
  rw [updatePreview_eq_inject convert srcB]
  rw [mem_attached_injectPreview] at hx
  rw [mem_attached_injectPreview]
  unfold injectPreview
  simp only
  omega

/-! ## ShareCodec (`shareAsUrl` / `loadFromHash`, src/app.js lines 480-527)

The compression transform itself is the external `lz-string` library,
loaded from a CDN and not part of src/.  `compressToEncodedURIComponent` /
`decompressFromEncodedURIComponent` are therefore modelled from the spec
(§4.7): "a general-purpose reversible text-compression transform suitable
for URL-fragment embedding (URL-safe alphabet, no padding characters
requiring escaping)", whose `decode` returns a well-defined no-result on
malformed tokens.  The model writes each character's code point as four
digits over a 62-symbol URL-safe alphabet; the decoder rejects any
malformed token with `none`. -/

/-- URL-safe alphabet of the modelled transform (no padding characters). -/
def urlAlphabet : List Char :=
  "ABCDEFGHIJKLMNOPQRSTUVWXYZabcdefghijklmnopqrstuvwxyz0123456789".data

/-- The digit symbol for a value `k < 62`. -/
def digitChar (k : Nat) : Char := urlAlphabet.getD k 'A'

def digitValAux : List Char → Nat → Char → Option Nat
  | [], _, _ => none
  | a :: as, i, c => if c = a then some i else digitValAux as (i + 1) c

/-- The value of a digit symbol; `none` for a character outside the
alphabet. -/
def digitVal (c : Char) : Option Nat := digitValAux urlAlphabet 0 c

/-- Modelled from the spec: one character of the input, written as four
base-62 digits of its code point (code points are below `62^4`). -/
def encodeChar (c : Char) : List Char :=
  let n := c.toNat
  [digitChar (n / 238328 % 62), digitChar (n / 3844 % 62),
   digitChar (n / 62 % 62), digitChar (n % 62)]

/-- Decode one four-digit chunk; `none` on a digit outside the alphabet or
a value that is no valid code point. -/
def decodeChunk (a b c d : Char) : Option Char :=
  match digitVal a, digitVal b, digitVal c, digitVal d with
  | some w, some x, some y, some z =>
    let n := ((w * 62 + x) * 62 + y) * 62 + z
    if _h : Nat.isValidChar n then some (Char.ofNat n) else none
  | _, _, _, _ => none

def encodeAll (l : List Char) : List Char :=
  match l with
  | [] => []
  | c :: cs => encodeChar c ++ encodeAll cs

def decodeAll : List Char → Option (List Char)
  | [] => some []
  | a :: b :: c :: d :: rest =>
    match decodeChunk a b c d, decodeAll rest with
    | some ch, some l => some (ch :: l)
    | _, _ => none
  | _ => none

/-- Modelled from the spec: `LZString.compressToEncodedURIComponent`
(external library, not in src/) — a reversible, URL-safe text transform. -/
def compressToEncodedURIComponent (s : String) : String := ⟨encodeAll s.data⟩

/-- Modelled from the spec: `LZString.decompressFromEncodedURIComponent`
(external library, not in src/) — inverse of the transform, returning a
well-defined no-result (`none`) on any malformed or foreign token. -/
def decompressFromEncodedURIComponent (s : String) : Option String :=
  (decodeAll s.data).map (fun l => ⟨l⟩)

theorem digitVal_digitChar : ∀ k < 62, digitVal (digitChar k) = some k := by decide

theorem decodeChunk_encodeChar (c : Char) :
    decodeChunk (digitChar (c.toNat / 238328 % 62)) (digitChar (c.toNat / 3844 % 62))
      (digitChar (c.toNat / 62 % 62)) (digitChar (c.toNat % 62)) = some c := by
  have hb : c.toNat < 1114112 := by
    have h := c.valid
    have he : c.toNat = c.val.toNat := rfl
    rcases h with h | h <;> omega
  have h1 : c.toNat / 238328 % 62 < 62 := Nat.mod_lt _ (by omega)
  have h2 : c.toNat / 3844 % 62 < 62 := Nat.mod_lt _ (by omega)
  have h3 : c.toNat / 62 % 62 < 62 := Nat.mod_lt _ (by omega)
  have h4 : c.toNat % 62 < 62 := Nat.mod_lt _ (by omega)
  rw [decodeChunk, digitVal_digitChar _ h1, digitVal_digitChar _ h2,
      digitVal_digitChar _ h3, digitVal_digitChar _ h4]
  have harith :
      ((c.toNat / 238328 % 62 * 62 + c.toNat / 3844 % 62) * 62 + c.toNat / 62 % 62) * 62
        + c.toNat % 62 = c.toNat := by omega
  simp only [harith]
  have hv : Nat.isValidChar c.toNat := c.valid
  rw [dif_pos hv, Char.ofNat_toNat]

theorem decodeAll_encodeAll (l : List Char) : decodeAll (encodeAll l) = some l := by
  induction l with
  | nil => rfl
  | cons c cs ih =>
    show decodeAll (encodeChar c ++ encodeAll cs) = some (c :: cs)
    rw [encodeChar]
    show decodeAll (_ :: _ :: _ :: _ :: encodeAll cs) = some (c :: cs)
    rw [decodeAll, decodeChunk_encodeChar, ih]

/-- `shareAsUrl` (src/app.js lines 505-527), restricted to the token it
emits: empty or whitespace-only editor content emits no token (only a
toast is shown); otherwise the URL fragment `lz,` + compressed content is
emitted (written into the location hash and the shared URL). -/
def shareAsUrl (text : String) : Option String :=
  if text = "" ∨ jsTrim text = "" then none
  else some ("lz," ++ compressToEncodedURIComponent text)

/-- `loadFromHash` (src/app.js lines 480-499).  `frag` is the location
hash without its leading `#`; `decomp` is the decompression call, which
may raise (`Except.error`, absorbed by the source's `try`/`catch`) or
return no result (`Except.ok none`, the library's null).  The result is
the editor content afterwards, paired with the number of renders
triggered (`updatePreview` calls). -/
def loadFromHash (decomp : String → Except String (Option String))
    (frag : String) (editor0 : String) : String × Nat :=
  if frag.data = [] then (editor0, 0)
  else if frag.data.take 3 = ['l', 'z', ','] then
    match decomp ⟨frag.data.drop 3⟩ with
    | Except.error _ => (editor0, 0)
    | Except.ok none => (editor0, 0)
    | Except.ok (some t) => if t = "" then (editor0, 0) else (t, 1)
  else (editor0, 0)

/-! ## Claim theorems -/

/-- Claim C1: after render cycle B has replaced the preview content that
cycle A produced, the in-flight diagram resolutions land on the node
references their batch captured, so (first conjunct) any interleaved
sequence of resolutions leaves the visible output exactly as if only the
resolutions addressing B's live nodes had run, and (second conjunct)
resolutions addressing only A's (now detached) nodes leave the visible
output unchanged: the output ends in a state consistent with B and never
regresses to A's content, regardless of resolution order. -/
theorem c1_stale_batch_not_visible (convert : String → List String)
    (srcA srcB : String) (d0 : Dom) (ts : List (Nat × String)) :
    visible (applyResolves ts (updatePreview convert srcB (updatePreview convert srcA d0)))
      = visible (applyResolves
          (ts.filter (fun p =>
            decide (p.1 ∈ (updatePreview convert srcB (updatePreview convert srcA d0)).attached)))
          (updatePreview convert srcB (updatePreview convert srcA d0)))
    ∧ ((∀ p ∈ ts, p.1 ∈ (updatePreview convert srcA d0).attached) →
        visible (applyResolves ts (updatePreview convert srcB (updatePreview convert srcA d0)))
          = visible (updatePreview convert srcB (updatePreview convert srcA d0))) := by
  constructor
  · exact visible_applyResolves_filter ts _
  · intro hA
    have hfilter : ts.filter (fun p =>
        decide (p.1 ∈ (updatePreview convert srcB (updatePreview convert srcA d0)).attached))
          = [] := by
      rw [List.filter_eq_nil_iff]
      intro p hp
      simp only [decide_eq_true_eq]
      exact attached_disjoint_after_second convert srcA srcB d0 (hA p hp)
    rw [visible_applyResolves_filter ts _, hfilter]
    rfl

/-- Witness for C1: a concrete two-cycle run in which a stale resolution
from cycle A lands after cycle B replaced the preview, with no visible
effect. -/
theorem c1_stale_batch_not_visible_witness :
    visible (applyResolves [(0, "stale")]
        (updatePreview (fun s => [s]) "b" (updatePreview (fun s => [s]) "a"
          (⟨fun _ => none, [], 0⟩ : Dom))))
      = visible (updatePreview (fun s => [s]) "b" (updatePreview (fun s => [s]) "a"
          (⟨fun _ => none, [], 0⟩ : Dom))) := by
  refine (c1_stale_batch_not_visible (fun s => [s]) "a" "b"
      (⟨fun _ => none, [], 0⟩ : Dom) [(0, "stale")]).2 ?_
  intro p hp
  rw [List.mem_singleton] at hp
  subst hp
  decide

/-- Claim C2: the ShareCodec round-trips — decoding the token produced by
encoding any string yields the string back — and encoding the empty
string emits no token at all. -/
theorem c2_share_codec_round_trip :
    (∀ s : String,
        decompressFromEncodedURIComponent (compressToEncodedURIComponent s) = some s)
    ∧ shareAsUrl "" = none := by
  constructor
  · intro s
    unfold decompressFromEncodedURIComponent compressToEncodedURIComponent
    show (decodeAll (encodeAll s.data)).map (fun l => (⟨l⟩ : String)) = some s
    rw [decodeAll_encodeAll]
    rfl
  · rfl

/-- Claim C3: for any nonempty sequence of calls to the debounced wrapper
whose consecutive gaps are below the delay, exactly one execution of the
wrapped function occurs; it fires one full delay after the last call and
receives that call's arguments, and at every intermediate state at most
one timeout is pending (each call cancelled, never accumulated, the prior
timer). -/
theorem c3_debounce_last_call_wins {α : Type} (d : Nat) (calls : List (Nat × α))
    (hne : calls ≠ [])
    (hgap : List.Chain' (fun p q => p.1 < q.1 ∧ q.1 < p.1 + d) calls) :
    (debounceRun d calls).fired
        = [((calls.getLast hne).1 + d, (calls.getLast hne).2)]
    ∧ ∀ s ∈ statesAlong d calls (initDeb α), s.pending.length ≤ 1 := by
  match calls, hne with
  | (t, a) :: cs, _ =>
    constructor
    · show (flushDeb (processCalls d ((t, a) :: cs) (initDeb α))).fired = _
      rw [processCalls, callAt_init]
      rw [processCalls_single d cs t 0 a [] hgap]
      rfl
    · intro s hs
      rw [statesAlong, callAt_init] at hs
      rcases List.mem_cons.mp hs with hs | hs
      · subst hs; exact Nat.le_of_lt Nat.one_pos
      · exact statesAlong_single d cs t 0 a [] hgap s hs

/-- Witness for C3: three calls 10 ms apart under a 50 ms delay produce
exactly one execution, at 70 ms, with the third call's argument. -/
theorem c3_debounce_last_call_wins_witness :
    (debounceRun 50 [((0 : Nat), (1 : Nat)), (10, 2), (20, 3)]).fired = [(70, 3)]
    ∧ ∀ s ∈ statesAlong 50 [((0 : Nat), (1 : Nat)), (10, 2), (20, 3)] (initDeb Nat),
        s.pending.length ≤ 1 := by
  have hch : List.Chain' (fun p q : Nat × Nat => p.1 < q.1 ∧ q.1 < p.1 + 50)
      [(0, 1), (10, 2), (20, 3)] :=
    List.chain'_cons.mpr ⟨⟨by decide, by decide⟩,
      List.chain'_cons.mpr ⟨⟨by decide, by decide⟩, List.chain'_singleton _⟩⟩
  have h := c3_debounce_last_call_wins 50 [(0, 1), (10, 2), (20, 3)] (by decide) hch
  exact h

/-- Claim C4 counterexample: the claim asserts the Escaper's output
contains no literal `&` character, but escaping the one-character input
`&` produces `&amp;`, whose first character is a literal `&`. -/
theorem c4_escaper_counterexample : '&' ∈ (escapeHtml "&").data := by decide

/-- Claim C4 (amended): the Escaper's output is exactly the input with
each of the five characters replaced by its named reference and no other
character altered; the output contains no literal `<`, `>`, `"`, `'`, and
every `&` in the output begins one of the five named references. -/
theorem c4_escaper_amended (s : String) :
    escapeHtml s = ⟨escAll s.data⟩
    ∧ (∀ y ∈ (escapeHtml s).data, y ≠ '<' ∧ y ≠ '>' ∧ y ≠ '"' ∧ y ≠ '\'')
    ∧ ampRefsOnly (escapeHtml s).data = true := by
  have hd : (escapeHtml s).data = escAll s.data := escapeHtmlL_eq_escAll s.data
  refine ⟨?_, ?_, ?_⟩
  · show (⟨escapeHtmlL s.data⟩ : String) = ⟨escAll s.data⟩
    rw [escapeHtmlL_eq_escAll]
  · rw [hd]; exact escAll_no_markup s.data
  · rw [hd]; exact ampRefsOnly_escAll s.data

/-- Witness for C4 (amended), at the concrete input `a<b`. -/
theorem c4_escaper_amended_witness :
    escapeHtml "a<b" = "a&lt;b"
    ∧ ('a' ≠ '<' ∧ 'a' ≠ '>' ∧ 'a' ≠ '"' ∧ 'a' ≠ '\'') := by
  refine ⟨?_, (c4_escaper_amended "a<b").2.1 'a' (by decide)⟩
  have h := (c4_escaper_amended "a<b").1
  rw [h]
  decide

/-- Claim C5: a fenced block whose language tag is the diagram marker
`mermaid` renders as a container flagged for diagram processing whose
content is the raw block content passed through the Escaper exactly once,
and that escaped content round-trips exactly when read back as text. -/
theorem c5_mermaid_block_escaped_once (hl : Hljs) (code : String) :
    codeRenderer hl code (some "mermaid")
        = "<pre class=\"mermaid\">" ++ escapeHtml code ++ "</pre>"
    ∧ unescAll (escapeHtml code).data = code.data := by
  constructor
  · have h1 : jsTrim "mermaid" = "mermaid" := by decide
    simp [codeRenderer, h1]
  · exact unescAll_escapeHtml code

theorem take21_ne_mermaidFlag (lit : String) (tail : List Char)
    (hlen : 21 ≤ lit.data.length) (hne : lit.data.take 21 ≠ mermaidFlag) :
    (lit.data ++ tail).take 21 ≠ mermaidFlag := by
  rw [List.take_append_of_le_length hlen]
  exact hne

/-- Claim C6: for a fenced block with a non-empty, non-diagram language
tag, the renderer emits the highlighting-service output when the tag is
recognized and highlighting succeeds; when the tag is unrecognized or the
service raises any failure, it silently falls back to a plain escaped
code container retaining the tag as metadata; in no case is the emitted
container flagged for diagram processing (and the renderer itself — a
total function — never throws). -/
theorem c6_code_block_fallback (hl : Hljs) (code lang : String)
    (h1 : jsTrim lang ≠ "") (h2 : jsTrim lang ≠ "mermaid") :
    (∀ h, hl.getLanguage (jsTrim lang) = Except.ok true →
        hl.highlight code (jsTrim lang) = Except.ok h →
        codeRenderer hl code (some lang)
          = "<pre><code class=\"hljs language-" ++ escapeHtml (jsTrim lang) ++ "\">"
              ++ h ++ "</code></pre>")
    ∧ ((hl.getLanguage (jsTrim lang) = Except.ok false
          ∨ (∃ e, hl.getLanguage (jsTrim lang) = Except.error e)
          ∨ (∃ e, hl.highlight code (jsTrim lang) = Except.error e)) →
        codeRenderer hl code (some lang)
          = "<pre><code class=\"language-" ++ escapeHtml (jsTrim lang) ++ "\">"
              ++ escapeHtml code ++ "</code></pre>")
    ∧ (codeRenderer hl code (some lang)).data.take 21 ≠ mermaidFlag := by
  have hren : codeRenderer hl code (some lang)
      = match hljsAttempt hl code (jsTrim lang) with
        | some h =>
          "<pre><code class=\"hljs language-" ++ escapeHtml (jsTrim lang) ++ "\">"
            ++ h ++ "</code></pre>"
        | none =>
          "<pre><code class=\"language-" ++ escapeHtml (jsTrim lang) ++ "\">"
            ++ escapeHtml code ++ "</code></pre>" := by
    unfold codeRenderer
    simp only [Option.getD]
    rw [if_neg h2, if_pos h1]
  refine ⟨?_, ?_, ?_⟩
  · intro h hget hhl
    have hatt : hljsAttempt hl code (jsTrim lang) = some h := by
      unfold hljsAttempt
      rw [hget, hhl]
    rw [hren, hatt]
  · intro hdisj
    have hatt : hljsAttempt hl code (jsTrim lang) = none := by
      unfold hljsAttempt
      rcases hdisj with hget | ⟨e, hget⟩ | ⟨e, hhl⟩
      · rw [hget]
      · rw [hget]
      · cases hget : hl.getLanguage (jsTrim lang) with
        | error e2 => rfl
        | ok b =>
          cases b with
          | false => rfl
          | true => rw [hhl]
    rw [hren, hatt]
  · rw [hren]
    cases hatt : hljsAttempt hl code (jsTrim lang) with
    | some h =>
      simp only [String.data_append, List.append_assoc]
      exact take21_ne_mermaidFlag "<pre><code class=\"hljs language-" _ (by decide) (by decide)
    | none =>
      simp only [String.data_append, List.append_assoc]
      exact take21_ne_mermaidFlag "<pre><code class=\"language-" _ (by decide) (by decide)

/-- Witness for C6: an unrecognized tag (`python`, with a highlighting
service that recognizes nothing) falls back to the plain escaped
container, with the tag kept as class metadata and the content escaped. -/
theorem c6_code_block_fallback_witness :
    codeRenderer ⟨fun _ => Except.ok false, fun _ _ => Except.error "boom"⟩
        "x&y" (some "python")
      = "<pre><code class=\"language-python\">x&amp;y</code></pre>" := by
  have h := (c6_code_block_fallback
      ⟨fun _ => Except.ok false, fun _ _ => Except.error "boom"⟩
      "x&y" "python" (by decide) (by decide)).2.1 (Or.inl rfl)
  rw [h]
  decide

/-- Claim C7: within one diagram batch, a placeholder whose rendering
fails has its content replaced by the escaped human-readable error
message, the batch always completes (one failure aborts nothing), every
other placeholder's outcome is exactly what it would be on its own, and
every placeholder ends in a terminal state. -/
theorem c7_batch_isolated_failure (engine : String → Except String String)
    (pre post : List MermaidEl) (el : MermaidEl) (msg : String)
    (hfail : engine el.src = Except.error msg) :
    runBatch engine (pre ++ el :: post)
        = Except.ok (pre.map (resolveOne engine)
            ++ { el with content := mermaidErrorHtml msg, state := DiagramState.failed }
              :: post.map (resolveOne engine))
    ∧ (∀ r ∈ pre.map (resolveOne engine)
          ++ { el with content := mermaidErrorHtml msg, state := DiagramState.failed }
            :: post.map (resolveOne engine),
        r.state ≠ DiagramState.pending) := by
  have hel : resolveOne engine el
      = { el with content := mermaidErrorHtml msg, state := DiagramState.failed } := by
    unfold resolveOne
    rw [hfail]
  constructor
  · rw [runBatch_ok, List.map_append, List.map_cons, hel]
  · intro r hr
    rw [List.mem_append, List.mem_cons] at hr
    rcases hr with hr | hr | hr
    · obtain ⟨x, _, rfl⟩ := List.mem_map.mp hr
      exact resolveOne_terminal engine x
    · subst hr
      simp
    · obtain ⟨x, _, rfl⟩ := List.mem_map.mp hr
      exact resolveOne_terminal engine x

/-- Witness for C7: a batch of three placeholders whose middle one fails
completes with the two siblings succeeding and the failed one carrying
the inline escaped error. -/
theorem c7_batch_isolated_failure_witness :
    runBatch (fun s => if s = "bad" then Except.error "boom" else Except.ok "<svg/>")
        [⟨"good", "g", DiagramState.pending⟩, ⟨"bad", "b", DiagramState.pending⟩,
          ⟨"good2", "g2", DiagramState.pending⟩]
      = Except.ok
          [⟨"good", "<svg/>", DiagramState.succeeded⟩,
            ⟨"bad", mermaidErrorHtml "boom", DiagramState.failed⟩,
            ⟨"good2", "<svg/>", DiagramState.succeeded⟩] := by
  have h := (c7_batch_isolated_failure
      (fun s => if s = "bad" then Except.error "boom" else Except.ok "<svg/>")
      [⟨"good", "g", DiagramState.pending⟩] [⟨"good2", "g2", DiagramState.pending⟩]
      ⟨"bad", "b", DiagramState.pending⟩ "boom" rfl).1
  show runBatch (fun s => if s = "bad" then Except.error "boom" else Except.ok "<svg/>")
      ([⟨"good", "g", DiagramState.pending⟩]
        ++ ⟨"bad", "b", DiagramState.pending⟩ :: [⟨"good2", "g2", DiagramState.pending⟩])
    = _
  rw [h]
  rfl

/-- Claim C8: the diagram identifiers assigned over one session (any
sequence of batches, the process-wide counter threaded through and never
reset) are strictly increasing in assignment order — hence pairwise
distinct, with later identifiers strictly greater than earlier ones. -/
theorem c8_counter_monotone (c : Nat) (ns : List Nat) :
    List.Pairwise (· < ·) ((sessionIds c ns).flatten)
    ∧ ((sessionIds c ns).flatten).Nodup := by
  refine ⟨pairwise_sessionIds c ns, ?_⟩
  exact (pairwise_sessionIds c ns).imp (fun h => Nat.ne_of_lt h)

/-- Claim C9: loading from the URL fragment is a no-op when the fragment
is absent or its prefix is not `lz,`; with the recognized prefix, a
decode that raises or yields no result is a silent no-op (the decoder
call is the only fallible step and it sits inside try/catch, so loading
never crashes); and the editor content is replaced — with exactly one
render triggered — only when decoding succeeds. -/
theorem c9_load_from_hash_safe (decomp : String → Except String (Option String))
    (frag editor0 : String) :
    ((frag.data = [] ∨ frag.data.take 3 ≠ ['l', 'z', ',']) →
        loadFromHash decomp frag editor0 = (editor0, 0))
    ∧ (frag.data.take 3 = ['l', 'z', ','] →
        (decomp ⟨frag.data.drop 3⟩ = Except.ok none
            ∨ (∃ e, decomp ⟨frag.data.drop 3⟩ = Except.error e)) →
        loadFromHash decomp frag editor0 = (editor0, 0))
    ∧ (∀ t n, loadFromHash decomp frag editor0 = (t, n) → (t, n) ≠ (editor0, 0) →
        decomp ⟨frag.data.drop 3⟩ = Except.ok (some t) ∧ t ≠ "" ∧ n = 1) := by
  refine ⟨?_, ?_, ?_⟩
  · intro hcase
    unfold loadFromHash
    rcases hcase with hcase | hcase
    · rw [if_pos hcase]
    · by_cases hd : frag.data = []
      · rw [if_pos hd]
      · rw [if_neg hd, if_neg hcase]
  · intro hpre hdec
    unfold loadFromHash
    have hd : frag.data ≠ [] := by
      intro h
      rw [h] at hpre
      simp at hpre
    rw [if_neg hd, if_pos hpre]
    rcases hdec with hdec | ⟨e, hdec⟩ <;> rw [hdec]
  · intro t n heq hne
    unfold loadFromHash at heq
    by_cases hd : frag.data = []
    · rw [if_pos hd] at heq
      exact absurd heq.symm (by simpa using hne)
    · rw [if_neg hd] at heq
      by_cases hpre : frag.data.take 3 = ['l', 'z', ',']
      · rw [if_pos hpre] at heq
        cases hdec : decomp ⟨frag.data.drop 3⟩ with
        | error e =>
          rw [hdec] at heq
          exact absurd heq.symm (by simpa using hne)
        | ok o =>
          cases o with
          | none =>
            rw [hdec] at heq
            exact absurd heq.symm (by simpa using hne)
          | some t2 =>
            simp only [hdec] at heq
            by_cases ht2 : t2 = ""
            · rw [if_pos ht2] at heq
              exact absurd heq.symm (by simpa using hne)
            · rw [if_neg ht2] at heq
              rw [Prod.mk.injEq] at heq
              obtain ⟨hti, hni⟩ := heq
              subst hti
              exact ⟨rfl, ht2, hni.symm⟩
      · rw [if_neg hpre] at heq
        exact absurd heq.symm (by simpa using hne)

/-- Witness for C9: a fragment with the recognized prefix whose token the
decoder rejects is silently ignored. -/
theorem c9_load_from_hash_safe_witness :
    loadFromHash (fun _ => Except.ok none) "lz,abc" "orig" = ("orig", 0) := by
  exact (c9_load_from_hash_safe (fun _ => Except.ok none) "lz,abc" "orig").2.1
    (by decide) (Or.inl rfl)

/-- Claim C10: a recognized-prefix fragment whose token decodes
successfully to the empty string is discarded exactly like a malformed
token — editor unchanged, no render — because the success check tests the
decoded text for truthiness. -/
theorem c10_empty_decode_discarded (decomp : String → Except String (Option String))
    (frag editor0 : String)
    (hpre : frag.data.take 3 = ['l', 'z', ','])
    (hdec : decomp ⟨frag.data.drop 3⟩ = Except.ok (some "")) :
    loadFromHash decomp frag editor0 = (editor0, 0) := by
  unfold loadFromHash
  have hd : frag.data ≠ [] := by
    intro h
    rw [h] at hpre
    simp at hpre
  rw [if_neg hd, if_pos hpre, hdec]
  rfl

/-- Witness for C10: a token decoding to the empty document is silently
discarded. -/
theorem c10_empty_decode_discarded_witness :
    loadFromHash (fun _ => Except.ok (some "")) "lz,XYZ" "orig" = ("orig", 0) := by
  exact c10_empty_decode_discarded (fun _ => Except.ok (some "")) "lz,XYZ" "orig"
    (by decide) rfl

end MarkdownRenderer
